import Mathlib

/-!
# Verification of the mysql-redis caching proxy (`src/index.js`)

Shallow embedding of the query-interception and caching-policy engine of the
`mysql-redis` package: hash-strategy dispatch, option resolution with JS
falsiness semantics, cache-key derivation from `sql + JSON.stringify(values)`,
and the two invocation adapters (`MysqlRedis.query`, completion-callback style,
and `MysqlRedisAsync.query`, promise style) together with the sequence of
cache-store operations they issue.

External collaborators (the mysql driver, the redis client, the `farmhash`
fingerprints, the `string64` encoder and the blake2b512 digest) are inputs of
the embedded functions: the theorems quantify over their behaviour.
-/

namespace MysqlRedisSpec

/-- The `HashTypes` enum of `src/index.js` (farmhash32 = 0, farmhash64 = 1,
blake2b512 = 2, full = 3). -/
inductive HashType where
  | farmhash32
  | farmhash64
  | blake2b512
  | full
deriving DecidableEq, Repr

/-- Numeric code of a `HashTypes` member, as in the source object. -/
def HashType.code : HashType → Nat
  | .farmhash32 => 0
  | .farmhash64 => 1
  | .blake2b512 => 2
  | .full => 3

/-- JS truthiness of a `HashTypes` value: `farmhash32` has code 0 and is falsy. -/
def HashType.truthy (h : HashType) : Bool := h.code != 0

/-- The `Caching` enum of `src/index.js` (CACHE = 0, SKIP = 1, REFRESH = 2). -/
inductive Caching where
  | CACHE
  | SKIP
  | REFRESH
deriving DecidableEq, Repr

/-- Numeric code of a `Caching` member, as in the source object. -/
def Caching.code : Caching → Nat
  | .CACHE => 0
  | .SKIP => 1
  | .REFRESH => 2

/-- JS truthiness of a `Caching` value: `CACHE` has code 0 and is falsy. -/
def Caching.truthy (c : Caching) : Bool := c.code != 0

/-- A fully resolved set of cache options (each field concrete), as held in
`this.cacheOptions` after the constructor ran. -/
structure CacheOptions where
  expire : Nat
  keyPrefix : String
  hashType : HashType
  caching : Caching
deriving DecidableEq, Repr

/-- `defaultCacheOptions` from `src/index.js`. -/
def defaultCacheOptions : CacheOptions :=
  { expire := 2629746, keyPrefix := "sql.", hashType := .farmhash32, caching := .CACHE }

/-- A partial options object as supplied by the caller (constructor argument or
per-call options).  `none` in a field means the property is absent
(`undefined`); a present value may still be falsy (`0`, `""`, enum code 0),
in which case the `||` chains of the source fall through to the default. -/
structure PartialOptions where
  expire : Option Nat := none
  keyPrefix : Option String := none
  hashType : Option HashType := none
  caching : Option Caching := none
  /-- the literal key override `options.hash` (a string; `""` is falsy) -/
  hash : Option String := none
deriving DecidableEq, Repr

/-- JS `a.f || b` for a numeric field: `0` and absent fall through. -/
def orNat (o : Option Nat) (dflt : Nat) : Nat :=
  match o with
  | some v => if v != 0 then v else dflt
  | none => dflt

/-- JS `a.f || b` for a string field: `""` and absent fall through. -/
def orStr (o : Option String) (dflt : String) : String :=
  match o with
  | some v => if v != "" then v else dflt
  | none => dflt

/-- JS `a.f || b` for a `HashTypes` field (`farmhash32` is falsy). -/
def orHashType (o : Option HashType) (dflt : HashType) : HashType :=
  match o with
  | some v => if v.truthy then v else dflt
  | none => dflt

/-- JS `a.f || b` for a `Caching` field (`CACHE` is falsy). -/
def orCaching (o : Option Caching) (dflt : Caching) : Caching :=
  match o with
  | some v => if v.truthy then v else dflt
  | none => dflt

/-- The constructor of `MysqlRedis` / `MysqlRedisAsync` (identical in both):
`this.cacheOptions = { expire: (cacheOptions && cacheOptions.expire) || default.expire, ... }`.
`none` models an absent `cacheOptions` argument. -/
def resolveCtorOptions (cacheOptions : Option PartialOptions) : CacheOptions :=
  match cacheOptions with
  | none => defaultCacheOptions
  | some o =>
    { expire := orNat o.expire defaultCacheOptions.expire
      keyPrefix := orStr o.keyPrefix defaultCacheOptions.keyPrefix
      hashType := orHashType o.hashType defaultCacheOptions.hashType
      caching := orCaching o.caching defaultCacheOptions.caching }

/-- Per-call resolution `(options && options.keyPrefix) || this.cacheOptions.keyPrefix`. -/
def resolvePrefix (options : Option PartialOptions) (inst : CacheOptions) : String :=
  orStr (options.bind (·.keyPrefix)) inst.keyPrefix

/-- Per-call resolution `(options && options.hashType) || this.cacheOptions.hashType`. -/
def resolveHashType (options : Option PartialOptions) (inst : CacheOptions) : HashType :=
  orHashType (options.bind (·.hashType)) inst.hashType

/-- Per-call resolution `(options && options.caching) || this.cacheOptions.caching`. -/
def resolveCaching (options : Option PartialOptions) (inst : CacheOptions) : Caching :=
  orCaching (options.bind (·.caching)) inst.caching

/-- Per-call resolution `(options && options.expire) || this.cacheOptions.expire`. -/
def resolveExpire (options : Option PartialOptions) (inst : CacheOptions) : Nat :=
  orNat (options.bind (·.expire)) inst.expire

/-! ## JSON serialization of the bind-parameter array

`query` computes `_s = sql + JSON.stringify(values)`.  A bind parameter is a
number or a string (strings are modelled over characters that JSON.stringify
leaves unescaped except for the quote and the backslash, i.e. non-control
characters).  An absent `values` argument stringifies to `undefined`, which the
`+` concatenation coerces to the text `"undefined"`. -/

/-- A single bind parameter: a JS number (integer) or a JS string. -/
inductive JsParam where
  | num (n : Int)
  | str (s : List Char)
deriving DecidableEq, Repr

/-- Decimal digit characters of a natural number (the JS rendering of a
non-negative integer). -/
def digitsOf (m : Nat) : List Char :=
  if m = 0 then ['0'] else ((Nat.digits 10 m).map Nat.digitChar).reverse

/-- JS decimal rendering of an integer. -/
def intChars (n : Int) : List Char :=
  if n < 0 then '-' :: digitsOf n.natAbs else digitsOf n.natAbs

/-- JSON escaping of one character: the quote and the backslash get a
backslash prefix, anything else is kept as is. -/
def escChar (c : Char) : List Char :=
  if c = '"' ∨ c = '\\' then ['\\', c] else [c]

/-- JSON escaping of a string body. -/
def escAll : List Char → List Char
  | [] => []
  | c :: cs => escChar c ++ escAll cs

/-- `JSON.stringify` of one array element. -/
def itemChars : JsParam → List Char
  | .num n => intChars n
  | .str s => '"' :: (escAll s ++ ['"'])

/-- The comma-joined element list inside `JSON.stringify` of an array. -/
def itemsChars : List JsParam → List Char
  | [] => []
  | [x] => itemChars x
  | x :: y :: xs => itemChars x ++ ',' :: itemsChars (y :: xs)

/-- `JSON.stringify` of an array of bind parameters. -/
def listChars (l : List JsParam) : List Char :=
  '[' :: (itemsChars l ++ [']'])

/-- The serialization of the `values` argument inside `_s = sql +
JSON.stringify(values)`: an absent argument contributes the text
`"undefined"`, a present array its JSON text. -/
def serializeValues : Option (List JsParam) → List Char
  | none => "undefined".data
  | some l => listChars l

/-- String-level wrapper of `serializeValues`. -/
def jsonStringifyValues (v : Option (List JsParam)) : String :=
  ⟨serializeValues v⟩

/-! ## The hash-strategy dispatch (`hash` in `src/index.js`, lines 28-40)

The farmhash fingerprints, the `string64` re-encoder and the blake2b512
digest live in external packages; they are parameters `fp32`, `fp64`, `enc`,
`b64` of the embedded dispatch.  Note the source sends `HashTypes.farmhash64`
to `farmhash.fingerprint32` and `HashTypes.farmhash32` (and the `default`
case) to `farmhash.fingerprint64`. -/

/-- External collaborators of the `hash` function: the 32- and 64-bit
farmhash fingerprints, the `string64` number re-encoder, and the base64
blake2b512 digest. -/
structure HashFns where
  fp32 : String → Nat
  fp64 : String → Nat
  enc : Nat → String
  b64 : String → String

/-- The `hash(sql, hashType)` dispatch of `src/index.js`. -/
def hash (fns : HashFns) (sql : String) (hashType : HashType) : String :=
  match hashType with
  | .blake2b512 => fns.b64 sql
  | .full => sql
  | .farmhash64 => fns.enc (fns.fp32 sql)
  | .farmhash32 => fns.enc (fns.fp64 sql)

/-! ## Key derivation (lines 59-65 / 160-165, identical in both adapters) -/

/-- The hashed payload `_s = sql + JSON.stringify(values)`. -/
def payloadStr (sql : String) (values : Option (List JsParam)) : String :=
  sql ++ jsonStringifyValues values

/-- The per-call literal key override `(options && options.hash)`, when truthy. -/
def hashOverride (options : Option PartialOptions) : Option String :=
  match options.bind (·.hash) with
  | some h => if h != "" then some h else none
  | none => none

/-- `key = prefix + ((options && options.hash) || hash(_s, hashType))`. -/
def deriveKey (fns : HashFns) (inst : CacheOptions) (sql : String)
    (values : Option (List JsParam)) (options : Option PartialOptions) : String :=
  let s := payloadStr sql values
  let pfx := resolvePrefix options inst
  let hashType := resolveHashType options inst
  pfx ++ (match hashOverride options with
          | some h => h
          | none => hash fns s hashType)

/-! ## The orchestration state machine

The two backing stores are inputs: the mysql query outcome
(`Except E (MR × FM)`, an error or rows plus field metadata), the redis `get`
outcome (`Except E (Option String)`, an error, a missing key (`null`), or the
stored text), and the redis `set` outcome (`Except E Unit`).  `MR`, `FM` are
the (opaque) row and field-metadata types; `E` is the error type of all three
collaborators.  Each adapter returns its delivered outcome together with the
ordered list of cache-store operations it issued. -/

/-- A cache-store operation issued by an adapter. -/
inductive CacheOp where
  | get (key : String)
  | set (key : String) (value : String) (expire : Nat)
deriving DecidableEq, Repr

/-- The key a cache-store operation addresses. -/
def CacheOp.key : CacheOp → String
  | .get k => k
  | .set k _ _ => k

/-- The data argument delivered to the caller: the primary-store rows, the JS
`null`, or `JSON.parse` of a cached text.  (`JSON.parse(null)` in JS coerces
its argument to `"null"` and yields `null`; `jsonParseOpt` below reflects
this.) -/
inductive DataVal (MR : Type) where
  | mysql (r : MR)
  | jnull
  | parsed (s : String)
deriving DecidableEq, Repr

/-- `JSON.parse(redisResult)` where `redisResult` is `null` (absent key) or the
stored text. -/
def jsonParseOpt {MR : Type} : Option String → DataVal MR
  | none => .jnull
  | some s => .parsed s

/-- The metadata argument delivered to the caller: the genuine field
descriptors of the primary store, or the single-element cache-hit marker
`[{cacheHit: key}]`. -/
inductive MetaVal (FM : Type) where
  | fields (f : FM)
  | cacheHit (key : String)
deriving DecidableEq, Repr

/-- One invocation of the completion handler `(err, data, fieldsOrMarker)`:
`err` is `none` on success; `meta` is `none` when the handler got only two
arguments (`cb(mysqlErr, null)`). -/
structure CbOut (E MR FM : Type) where
  err : Option E
  data : DataVal MR
  meta : Option (MetaVal FM)
deriving DecidableEq, Repr

/-- The settlement of the promise returned by `MysqlRedisAsync.query`. -/
inductive POut (E MR FM : Type) where
  | resolved (d : DataVal MR) (m : MetaVal FM)
  | rejected (e : E)
deriving DecidableEq, Repr

/-- The behaviour of the two backing stores for one invocation. -/
structure Stores (E MR FM : Type) where
  /-- outcome of `mysqlConn.query(sql, params, ...)` -/
  mysql : Except E (MR × FM)
  /-- outcome of `redisClient.get(key, ...)`; `none` is a missing key -/
  redisGet : Except E (Option String)
  /-- outcome of `redisClient.set(key, value, "EX", expire, ...)` -/
  redisSet : Except E Unit
  /-- JS truthiness of the row value (for `!(mysqlResult && fields)`) -/
  truthyR : MR → Bool
  /-- JS truthiness of the field metadata -/
  truthyF : FM → Bool
  /-- `JSON.stringify(mysqlResult)`, the text written to the cache -/
  stringifyR : MR → String

/-- `MysqlRedis.query` (completion-callback adapter, lines 54-137): the
delivered `(err, data, meta)` triple and the cache operations issued.  The
redis `set` completion handler in the source is `(err, res) => {}`, so the
`redisSet` outcome never reaches the caller. -/
def MysqlRedis.query {E MR FM : Type} (fns : HashFns) (inst : CacheOptions)
    (sql : String) (values : Option (List JsParam)) (options : Option PartialOptions)
    (st : Stores E MR FM) : CbOut E MR FM × List CacheOp :=
  let key := deriveKey fns inst sql values options
  let expire := resolveExpire options inst
  match resolveCaching options inst with
  | .SKIP =>
    match st.mysql with
    | .error e => (⟨some e, .jnull, none⟩, [])
    | .ok (r, f) => (⟨none, .mysql r, some (.fields f)⟩, [])
  | .REFRESH =>
    match st.mysql with
    | .error e => (⟨some e, .jnull, none⟩, [])
    | .ok (r, f) => (⟨none, .mysql r, some (.fields f)⟩, [.set key (st.stringifyR r) expire])
  | .CACHE =>
    match st.mysql with
    | .error _ =>
      match st.redisGet with
      | .error re => (⟨some re, .jnull, some (.cacheHit key)⟩, [.get key])
      | .ok none => (⟨none, .jnull, some (.cacheHit key)⟩, [.get key])
      | .ok (some v) => (⟨none, .parsed v, some (.cacheHit key)⟩, [.get key])
    | .ok (r, f) => (⟨none, .mysql r, some (.fields f)⟩, [.set key (st.stringifyR r) expire])

/-- `MysqlRedisAsync.query` (promise adapter, lines 154-249): the first
`resolve`/`reject` wins, but statements after a settlement still run, so the
operation trace can keep growing after the outcome is fixed.  In CACHE mode
the `await redisClient.set(...)` sits inside the `try`, so a failed write
falls into the `catch` block and triggers the cache-read fallback. -/
def MysqlRedisAsync.query {E MR FM : Type} (fns : HashFns) (inst : CacheOptions)
    (sql : String) (values : Option (List JsParam)) (options : Option PartialOptions)
    (st : Stores E MR FM) : POut E MR FM × List CacheOp :=
  let key := deriveKey fns inst sql values options
  let expire := resolveExpire options inst
  match resolveCaching options inst with
  | .SKIP =>
    match st.mysql with
    | .error e => (.rejected e, [])
    | .ok (r, f) => (.resolved (.mysql r) (.fields f), [])
  | .REFRESH =>
    match st.mysql with
    | .error e => (.rejected e, [])
    | .ok (r, f) =>
      match st.redisSet with
      | .ok _ => (.resolved (.mysql r) (.fields f), [.set key (st.stringifyR r) expire])
      | .error se => (.rejected se, [.set key (st.stringifyR r) expire])
  | .CACHE =>
    match st.mysql with
    | .error _ =>
      -- outer catch: fall back to the cache read
      match st.redisGet with
      | .ok v => (.resolved (jsonParseOpt v) (.cacheHit key), [.get key])
      | .error re => (.rejected re, [.get key])
    | .ok (r, f) =>
      if st.truthyR r && st.truthyF f then
        -- the write-through is awaited before the resolve; a write failure is
        -- caught by the outer catch, which performs the cache-read fallback
        match st.redisSet with
        | .ok _ => (.resolved (.mysql r) (.fields f), [.set key (st.stringifyR r) expire])
        | .error _ =>
          match st.redisGet with
          | .ok v => (.resolved (jsonParseOpt v) (.cacheHit key),
                      [.set key (st.stringifyR r) expire, .get key])
          | .error re => (.rejected re, [.set key (st.stringifyR r) expire, .get key])
      else
        -- `!(mysqlResult && fields)`: read the cache first; the promise
        -- settles here, but the code then still runs the write-through (and,
        -- if that write throws, a second fallback read in the outer catch)
        let settled : POut E MR FM :=
          match st.redisGet with
          | .ok v => .resolved (jsonParseOpt v) (.cacheHit key)
          | .error re => .rejected re
        match st.redisSet with
        | .ok _ => (settled, [.get key, .set key (st.stringifyR r) expire])
        | .error _ => (settled, [.get key, .set key (st.stringifyR r) expire, .get key])

/-! ## A common view of the two delivery mechanisms

`Common` forgets the delivery mechanism: an outcome is an error (with the
metadata that accompanied it, if any) or a payload with its metadata. -/

/-- Delivery-independent outcome: error plus accompanying metadata, or data
plus metadata. -/
inductive Common (E MR FM : Type) where
  | errOut (e : E) (m : Option (MetaVal FM))
  | okOut (d : DataVal MR) (m : Option (MetaVal FM))
deriving DecidableEq, Repr

/-- The outcome a completion-handler invocation delivers, delivery mechanism
forgotten. -/
def cbCommon {E MR FM : Type} (o : CbOut E MR FM) : Common E MR FM :=
  match o.err with
  | some e => .errOut e o.meta
  | none => .okOut o.data o.meta

/-- The outcome a promise settlement delivers, delivery mechanism forgotten
(a rejection carries no metadata). -/
def pCommon {E MR FM : Type} : POut E MR FM → Common E MR FM
  | .rejected e => .errOut e none
  | .resolved d m => .okOut d (some m)

/-- The outcome of the primary store alone, in the common form (what a plain
pass-through would deliver). -/
def primaryCommon {E MR FM : Type} : Except E (MR × FM) → Common E MR FM
  | .error e => .errOut e none
  | .ok (r, f) => .okOut (.mysql r) (some (.fields f))

/-! ## Concrete collaborators used by the witnesses -/

/-- Concrete stand-ins for the external hash collaborators. -/
def wFns : HashFns :=
  { fp32 := fun _ => 0, fp64 := fun _ => 0, enc := fun n => toString n, b64 := fun s => s }

/-- Concrete store behaviour over `String` rows, fields and errors. -/
def wStores (m : Except String (String × String)) (g : Except String (Option String))
    (sb : Except String Unit) : Stores String String String :=
  { mysql := m, redisGet := g, redisSet := sb,
    truthyR := fun r => r != "", truthyF := fun f => f != "", stringifyR := fun r => r }

/-! ## Helper lemmas on the operation traces -/

/-- Every cache operation of the callback adapter addresses the derived key. -/
theorem cb_trace_keys {E MR FM : Type} (fns : HashFns) (inst : CacheOptions)
    (sql : String) (values : Option (List JsParam)) (options : Option PartialOptions)
    (st : Stores E MR FM) :
    ∀ op ∈ (MysqlRedis.query fns inst sql values options st).2,
      op.key = deriveKey fns inst sql values options := by
  unfold MysqlRedis.query
  rcases resolveCaching options inst <;>
    rcases st.mysql with e | ⟨r, f⟩ <;>
    rcases st.redisGet with re | (_ | v) <;>
    simp [CacheOp.key]

/-- Every cache operation of the promise adapter addresses the derived key. -/
theorem async_trace_keys {E MR FM : Type} (fns : HashFns) (inst : CacheOptions)
    (sql : String) (values : Option (List JsParam)) (options : Option PartialOptions)
    (st : Stores E MR FM) :
    ∀ op ∈ (MysqlRedisAsync.query fns inst sql values options st).2,
      op.key = deriveKey fns inst sql values options := by
  unfold MysqlRedisAsync.query
  rcases hc : resolveCaching options inst <;>
    rcases hm : st.mysql with e | ⟨r, f⟩ <;>
    rcases hg : st.redisGet with re | v <;>
    rcases hs : st.redisSet with se | u <;>
    simp only [hc, hm, hg, hs] <;>
    (try split) <;>
    simp [CacheOp.key]

/-! ## The claims -/

/-- C5: the source's `hash` dispatch sends the `farmhash32` strategy (and its
`default` case) to the 64-bit fingerprint `farmhash.fingerprint64`, and the
`farmhash64` strategy to the 32-bit fingerprint `farmhash.fingerprint32` —
the two fingerprint widths are swapped relative to the strategy names, the
README's key-length examples, and the spec ("a fast non-cryptographic 32-bit
digest, a fast non-cryptographic 64-bit digest"). -/
theorem hash_fingerprints_swapped (fns : HashFns) (sql : String) :
    hash fns sql .farmhash32 = fns.enc (fns.fp64 sql) ∧
    hash fns sql .farmhash64 = fns.enc (fns.fp32 sql) :=
  ⟨rfl, rfl⟩

/-- C6: in CACHE mode, when the primary store fails and the cache store holds
a value at the derived key, both adapters deliver the deserialized cached
value with exactly the cache-hit marker `[{cacheHit: key}]` and no error. -/
theorem cache_fallback_hit {E MR FM : Type} (fns : HashFns) (inst : CacheOptions)
    (sql : String) (values : Option (List JsParam)) (options : Option PartialOptions)
    (st : Stores E MR FM) (e : E) (v : String)
    (hc : resolveCaching options inst = .CACHE)
    (hm : st.mysql = .error e)
    (hg : st.redisGet = .ok (some v)) :
    (MysqlRedis.query fns inst sql values options st).1 =
      ⟨none, .parsed v, some (.cacheHit (deriveKey fns inst sql values options))⟩ ∧
    (MysqlRedisAsync.query fns inst sql values options st).1 =
      .resolved (.parsed v) (.cacheHit (deriveKey fns inst sql values options)) := by
  constructor <;> simp [MysqlRedis.query, MysqlRedisAsync.query, hc, hm, hg, jsonParseOpt]

/-- Witness for C6 at a concrete input. -/
theorem cache_fallback_hit_witness :
    resolveCaching none defaultCacheOptions = .CACHE ∧
    (wStores (.error "dbDown") (.ok (some "cached")) (.ok ())).mysql = .error "dbDown" ∧
    (wStores (.error "dbDown") (.ok (some "cached")) (.ok ())).redisGet = .ok (some "cached") ∧
    ((MysqlRedis.query wFns defaultCacheOptions "q" (some []) none
        (wStores (.error "dbDown") (.ok (some "cached")) (.ok ()))).1 =
      ⟨none, .parsed "cached", some (.cacheHit (deriveKey wFns defaultCacheOptions "q" (some []) none))⟩ ∧
    (MysqlRedisAsync.query wFns defaultCacheOptions "q" (some []) none
        (wStores (.error "dbDown") (.ok (some "cached")) (.ok ()))).1 =
      .resolved (.parsed "cached") (.cacheHit (deriveKey wFns defaultCacheOptions "q" (some []) none))) :=
  ⟨rfl, rfl, rfl, cache_fallback_hit _ _ _ _ _ _ _ _ rfl rfl rfl⟩

/-- C7: in CACHE mode, when the primary store fails and the cache store has no
value at the derived key, both adapters complete without an error, with a null
payload and exactly the cache-hit marker (a soft miss). -/
theorem cache_fallback_miss {E MR FM : Type} (fns : HashFns) (inst : CacheOptions)
    (sql : String) (values : Option (List JsParam)) (options : Option PartialOptions)
    (st : Stores E MR FM) (e : E)
    (hc : resolveCaching options inst = .CACHE)
    (hm : st.mysql = .error e)
    (hg : st.redisGet = .ok none) :
    (MysqlRedis.query fns inst sql values options st).1 =
      ⟨none, .jnull, some (.cacheHit (deriveKey fns inst sql values options))⟩ ∧
    (MysqlRedisAsync.query fns inst sql values options st).1 =
      .resolved .jnull (.cacheHit (deriveKey fns inst sql values options)) := by
  constructor <;> simp [MysqlRedis.query, MysqlRedisAsync.query, hc, hm, hg, jsonParseOpt]

/-- Witness for C7 at a concrete input. -/
theorem cache_fallback_miss_witness :
    resolveCaching none defaultCacheOptions = .CACHE ∧
    (wStores (.error "dbDown") (.ok none) (.ok ())).mysql = .error "dbDown" ∧
    (wStores (.error "dbDown") (.ok none) (.ok ())).redisGet = .ok none ∧
    ((MysqlRedis.query wFns defaultCacheOptions "q" (some []) none
        (wStores (.error "dbDown") (.ok none) (.ok ()))).1 =
      ⟨none, .jnull, some (.cacheHit (deriveKey wFns defaultCacheOptions "q" (some []) none))⟩ ∧
    (MysqlRedisAsync.query wFns defaultCacheOptions "q" (some []) none
        (wStores (.error "dbDown") (.ok none) (.ok ()))).1 =
      .resolved .jnull (.cacheHit (deriveKey wFns defaultCacheOptions "q" (some []) none))) :=
  ⟨rfl, rfl, rfl, cache_fallback_miss _ _ _ _ _ _ _ rfl rfl rfl⟩

/-- C8: a truthy literal key override in the per-call options skips hashing —
the derived key is the resolved prefix concatenated with the literal,
independent of the hash collaborators — and every cache operation of either
adapter addresses exactly that key. -/
theorem literal_key_override {E MR FM : Type} (fns : HashFns) (inst : CacheOptions)
    (sql : String) (values : Option (List JsParam)) (options : Option PartialOptions)
    (st : Stores E MR FM) (hlit : String)
    (h : hashOverride options = some hlit) :
    deriveKey fns inst sql values options = resolvePrefix options inst ++ hlit ∧
    (∀ op ∈ (MysqlRedis.query fns inst sql values options st).2,
      op.key = resolvePrefix options inst ++ hlit) ∧
    (∀ op ∈ (MysqlRedisAsync.query fns inst sql values options st).2,
      op.key = resolvePrefix options inst ++ hlit) := by
  have hk : deriveKey fns inst sql values options = resolvePrefix options inst ++ hlit := by
    unfold deriveKey
    rw [h]
  refine ⟨hk, fun op hop => ?_, fun op hop => ?_⟩
  · rw [cb_trace_keys fns inst sql values options st op hop, hk]
  · rw [async_trace_keys fns inst sql values options st op hop, hk]

/-- Witness for C8 at a concrete input. -/
theorem literal_key_override_witness :
    hashOverride (some { hash := some "mykey" }) = some "mykey" ∧
    (deriveKey wFns defaultCacheOptions "q" (some []) (some { hash := some "mykey" }) =
      resolvePrefix (some { hash := some "mykey" }) defaultCacheOptions ++ "mykey" ∧
    (∀ op ∈ (MysqlRedis.query wFns defaultCacheOptions "q" (some []) (some { hash := some "mykey" })
        (wStores (.ok ("rows", "flds")) (.ok none) (.ok ()))).2,
      op.key = resolvePrefix (some { hash := some "mykey" }) defaultCacheOptions ++ "mykey") ∧
    (∀ op ∈ (MysqlRedisAsync.query wFns defaultCacheOptions "q" (some []) (some { hash := some "mykey" })
        (wStores (.ok ("rows", "flds")) (.ok none) (.ok ()))).2,
      op.key = resolvePrefix (some { hash := some "mykey" }) defaultCacheOptions ++ "mykey")) :=
  ⟨rfl, literal_key_override _ _ _ _ _ _ _ rfl⟩

/-- C9: in SKIP mode neither adapter issues any cache-store operation, and the
primary result or error is delivered unchanged. -/
theorem skip_mode_passthrough {E MR FM : Type} (fns : HashFns) (inst : CacheOptions)
    (sql : String) (values : Option (List JsParam)) (options : Option PartialOptions)
    (st : Stores E MR FM)
    (hc : resolveCaching options inst = .SKIP) :
    (MysqlRedis.query fns inst sql values options st).2 = [] ∧
    (MysqlRedisAsync.query fns inst sql values options st).2 = [] ∧
    cbCommon (MysqlRedis.query fns inst sql values options st).1 = primaryCommon st.mysql ∧
    pCommon (MysqlRedisAsync.query fns inst sql values options st).1 = primaryCommon st.mysql := by
  rcases hm : st.mysql with e | ⟨r, f⟩ <;>
    simp [MysqlRedis.query, MysqlRedisAsync.query, hc, hm, cbCommon, pCommon, primaryCommon]

/-- Witness for C9 at a concrete input. -/
theorem skip_mode_passthrough_witness :
    resolveCaching (some { caching := some .SKIP }) defaultCacheOptions = .SKIP ∧
    ((MysqlRedis.query wFns defaultCacheOptions "q" (some []) (some { caching := some .SKIP })
        (wStores (.ok ("rows", "flds")) (.error "redisDown") (.error "setFail"))).2 = [] ∧
    (MysqlRedisAsync.query wFns defaultCacheOptions "q" (some []) (some { caching := some .SKIP })
        (wStores (.ok ("rows", "flds")) (.error "redisDown") (.error "setFail"))).2 = [] ∧
    cbCommon (MysqlRedis.query wFns defaultCacheOptions "q" (some []) (some { caching := some .SKIP })
        (wStores (.ok ("rows", "flds")) (.error "redisDown") (.error "setFail"))).1 =
      primaryCommon (wStores (.ok ("rows", "flds")) (.error "redisDown") (.error "setFail")).mysql ∧
    pCommon (MysqlRedisAsync.query wFns defaultCacheOptions "q" (some []) (some { caching := some .SKIP })
        (wStores (.ok ("rows", "flds")) (.error "redisDown") (.error "setFail"))).1 =
      primaryCommon (wStores (.ok ("rows", "flds")) (.error "redisDown") (.error "setFail")).mysql) :=
  ⟨rfl, skip_mode_passthrough _ _ _ _ _ _ rfl⟩

/-- C10: in the promise adapter under CACHE mode, when the primary store
succeeds but the rows or the field metadata are falsy, the adapter reads the
cache at the derived key and resolves with the deserialized cached payload and
the cache-hit marker instead of the primary result, and still attempts the
cache write afterwards. -/
theorem async_falsy_success_serves_cache {E MR FM : Type} (fns : HashFns) (inst : CacheOptions)
    (sql : String) (values : Option (List JsParam)) (options : Option PartialOptions)
    (st : Stores E MR FM) (r : MR) (f : FM) (v : Option String)
    (hc : resolveCaching options inst = .CACHE)
    (hm : st.mysql = .ok (r, f))
    (hf : (st.truthyR r && st.truthyF f) = false)
    (hg : st.redisGet = .ok v) :
    (MysqlRedisAsync.query fns inst sql values options st).1 =
      .resolved (jsonParseOpt v) (.cacheHit (deriveKey fns inst sql values options)) ∧
    (MysqlRedisAsync.query fns inst sql values options st).2.head? =
      some (.get (deriveKey fns inst sql values options)) ∧
    CacheOp.set (deriveKey fns inst sql values options) (st.stringifyR r) (resolveExpire options inst) ∈
      (MysqlRedisAsync.query fns inst sql values options st).2 := by
  have hf' : ¬ (st.truthyR r = true ∧ st.truthyF f = true) := by
    rcases Bool.and_eq_false_iff.mp hf with h | h <;> simp [h]
  rcases hs : st.redisSet with se | u <;>
    simp [MysqlRedisAsync.query, hc, hm, hg, hs, hf']

/-- Witness for C10 at a concrete input (empty rows are falsy under the
witness truthiness). -/
theorem async_falsy_success_serves_cache_witness :
    resolveCaching none defaultCacheOptions = .CACHE ∧
    (wStores (.ok ("", "flds")) (.ok (some "cached")) (.ok ())).mysql = .ok ("", "flds") ∧
    (((wStores (.ok ("", "flds")) (.ok (some "cached")) (.ok ())).truthyR "" &&
       (wStores (.ok ("", "flds")) (.ok (some "cached")) (.ok ())).truthyF "flds") = false) ∧
    (wStores (.ok ("", "flds")) (.ok (some "cached")) (.ok ())).redisGet = .ok (some "cached") ∧
    ((MysqlRedisAsync.query wFns defaultCacheOptions "q" (some []) none
        (wStores (.ok ("", "flds")) (.ok (some "cached")) (.ok ()))).1 =
      .resolved (jsonParseOpt (some "cached"))
        (.cacheHit (deriveKey wFns defaultCacheOptions "q" (some []) none)) ∧
    (MysqlRedisAsync.query wFns defaultCacheOptions "q" (some []) none
        (wStores (.ok ("", "flds")) (.ok (some "cached")) (.ok ()))).2.head? =
      some (.get (deriveKey wFns defaultCacheOptions "q" (some []) none)) ∧
    CacheOp.set (deriveKey wFns defaultCacheOptions "q" (some []) none)
        ((wStores (.ok ("", "flds")) (.ok (some "cached")) (.ok ())).stringifyR "")
        (resolveExpire none defaultCacheOptions) ∈
      (MysqlRedisAsync.query wFns defaultCacheOptions "q" (some []) none
        (wStores (.ok ("", "flds")) (.ok (some "cached")) (.ok ()))).2) :=
  ⟨rfl, rfl, rfl, rfl, async_falsy_success_serves_cache _ _ _ _ _ _ _ _ _ rfl rfl rfl rfl⟩

/-- C2, counterexample: in the promise adapter in REFRESH mode, with the
primary query succeeding and the cache write failing, the write error is
surfaced — the promise rejects with it instead of resolving with the primary
result and its genuine metadata. -/
theorem async_write_failure_surfaced :
    (MysqlRedisAsync.query wFns defaultCacheOptions "q" (some [])
        (some { caching := some .REFRESH })
        (wStores (.ok ("rows", "flds")) (.ok none) (.error "setBoom"))).1 =
      .rejected "setBoom" ∧
    (MysqlRedisAsync.query wFns defaultCacheOptions "q" (some [])
        (some { caching := some .REFRESH })
        (wStores (.ok ("rows", "flds")) (.ok none) (.error "setBoom"))).1 ≠
      .resolved (.mysql "rows") (.fields "flds") := by
  constructor
  · rfl
  · decide

/-- C2, amended: in the completion-callback adapter a cache-write failure is
never surfaced in any mode — the delivered triple is independent of the
`redisSet` outcome, and on primary success the primary result with its genuine
field metadata is returned; in the promise adapter, however, a REFRESH-mode
write failure rejects the promise with the write error. -/
theorem write_failure_policy :
    (∀ (E MR FM : Type) (fns : HashFns) (inst : CacheOptions) (sql : String)
       (values : Option (List JsParam)) (options : Option PartialOptions)
       (st : Stores E MR FM) (s₁ s₂ : Except E Unit),
      (MysqlRedis.query fns inst sql values options { st with redisSet := s₁ }).1 =
      (MysqlRedis.query fns inst sql values options { st with redisSet := s₂ }).1) ∧
    (∀ (E MR FM : Type) (fns : HashFns) (inst : CacheOptions) (sql : String)
       (values : Option (List JsParam)) (options : Option PartialOptions)
       (st : Stores E MR FM) (r : MR) (f : FM),
      st.mysql = .ok (r, f) →
      (MysqlRedis.query fns inst sql values options st).1 =
        ⟨none, .mysql r, some (.fields f)⟩) ∧
    (∀ (E MR FM : Type) (fns : HashFns) (inst : CacheOptions) (sql : String)
       (values : Option (List JsParam)) (options : Option PartialOptions)
       (st : Stores E MR FM) (r : MR) (f : FM) (se : E),
      resolveCaching options inst = .REFRESH →
      st.mysql = .ok (r, f) →
      st.redisSet = .error se →
      (MysqlRedisAsync.query fns inst sql values options st).1 = .rejected se) := by
  refine ⟨?_, ?_, ?_⟩
  · intro E MR FM fns inst sql values options st s₁ s₂
    unfold MysqlRedis.query
    rcases resolveCaching options inst <;>
      rcases st.mysql with e | ⟨r, f⟩ <;>
      rcases st.redisGet with re | (_ | v) <;>
      rfl
  · intro E MR FM fns inst sql values options st r f hm
    unfold MysqlRedis.query
    rcases resolveCaching options inst <;> simp [hm]
  · intro E MR FM fns inst sql values options st r f se hc hm hs
    simp [MysqlRedisAsync.query, hc, hm, hs]

/-- Witness for the implication parts of the amended C2 at a concrete input. -/
theorem write_failure_policy_witness :
    (wStores (.ok ("rows", "flds")) (.ok none) (.error "setBoom")).mysql = .ok ("rows", "flds") ∧
    resolveCaching (some { caching := some .REFRESH }) defaultCacheOptions = .REFRESH ∧
    (wStores (.ok ("rows", "flds")) (.ok none) (.error "setBoom")).redisSet = .error "setBoom" ∧
    (MysqlRedis.query wFns defaultCacheOptions "q" (some []) none
        (wStores (.ok ("rows", "flds")) (.ok none) (.error "setBoom"))).1 =
      ⟨none, .mysql "rows", some (.fields "flds")⟩ ∧
    (MysqlRedisAsync.query wFns defaultCacheOptions "q" (some [])
        (some { caching := some .REFRESH })
        (wStores (.ok ("rows", "flds")) (.ok none) (.error "setBoom"))).1 =
      .rejected "setBoom" :=
  ⟨rfl, rfl, rfl,
    write_failure_policy.2.1 _ _ _ wFns defaultCacheOptions "q" (some []) none _ _ _ rfl,
    write_failure_policy.2.2 _ _ _ wFns defaultCacheOptions "q" (some [])
      (some { caching := some .REFRESH }) _ _ _ _ rfl rfl rfl⟩

/-- C1, counterexample: with CACHE-mode fallback failing (primary down, cache
read erroring), the completion-callback adapter annotates the surfaced cache
error with the cache-hit marker, while the promise adapter rejects bare — the
two adapters do not deliver the same outcome. -/
theorem adapters_disagree_on_fallback_failure :
    cbCommon (MysqlRedis.query wFns defaultCacheOptions "q" (some []) none
        (wStores (.error "dbDown") (.error "redisDown") (.ok ()))).1 ≠
    pCommon (MysqlRedisAsync.query wFns defaultCacheOptions "q" (some []) none
        (wStores (.error "dbDown") (.error "redisDown") (.ok ()))).1 := by
  decide

/-- C1, amended: the two adapters deliver the same outcome except in the
promise adapter's divergent cases; they agree in SKIP mode always, in REFRESH
mode when the primary fails or the cache write succeeds, and in CACHE mode
when the primary fails with a succeeding cache read, or the primary succeeds
with truthy rows and metadata and the cache write succeeds. -/
theorem adapters_agree_outside_divergences {E MR FM : Type} (fns : HashFns)
    (inst : CacheOptions) (sql : String) (values : Option (List JsParam))
    (options : Option PartialOptions) (st : Stores E MR FM)
    (h : resolveCaching options inst = .SKIP ∨
         (resolveCaching options inst = .REFRESH ∧
           ((∃ e, st.mysql = .error e) ∨ st.redisSet = .ok ())) ∨
         (resolveCaching options inst = .CACHE ∧
           (((∃ e, st.mysql = .error e) ∧ ∃ v, st.redisGet = .ok v) ∨
            (∃ r f, st.mysql = .ok (r, f) ∧ (st.truthyR r && st.truthyF f) = true ∧
              st.redisSet = .ok ())))) :
    cbCommon (MysqlRedis.query fns inst sql values options st).1 =
    pCommon (MysqlRedisAsync.query fns inst sql values options st).1 := by
  rcases h with hc | ⟨hc, hp | hs⟩ | ⟨hc, ⟨⟨e, hm⟩, v, hg⟩ | ⟨r, f, hm, ht, hs⟩⟩
  · rcases hm : st.mysql with e | ⟨r, f⟩ <;>
      simp [MysqlRedis.query, MysqlRedisAsync.query, hc, hm, cbCommon, pCommon]
  · rcases hp with ⟨e, hm⟩
    simp [MysqlRedis.query, MysqlRedisAsync.query, hc, hm, cbCommon, pCommon]
  · rcases hm : st.mysql with e | ⟨r, f⟩ <;>
      simp [MysqlRedis.query, MysqlRedisAsync.query, hc, hm, hs, cbCommon, pCommon]
  · rcases v with _ | s <;>
      simp [MysqlRedis.query, MysqlRedisAsync.query, hc, hm, hg, cbCommon, pCommon, jsonParseOpt]
  · have ht' : st.truthyR r = true ∧ st.truthyF f = true := by
      exact Bool.and_eq_true_iff.mp ht
    simp [MysqlRedis.query, MysqlRedisAsync.query, hc, hm, hs, ht', cbCommon, pCommon]

/-- Witness for the amended C1 at a concrete input (SKIP mode). -/
theorem adapters_agree_outside_divergences_witness :
    resolveCaching (some { caching := some .SKIP }) defaultCacheOptions = .SKIP ∧
    cbCommon (MysqlRedis.query wFns defaultCacheOptions "q" (some [])
        (some { caching := some .SKIP })
        (wStores (.ok ("rows", "flds")) (.error "redisDown") (.ok ()))).1 =
    pCommon (MysqlRedisAsync.query wFns defaultCacheOptions "q" (some [])
        (some { caching := some .SKIP })
        (wStores (.ok ("rows", "flds")) (.error "redisDown") (.ok ()))).1 :=
  ⟨rfl, adapters_agree_outside_divergences _ _ _ _ _ _ (Or.inl rfl)⟩

/-- C4, counterexample: under the full hash strategy, invoking with absent
params and with an explicit empty parameter list derive different cache keys
(`"sql.qundefined"` vs `"sql.q[]"`): absent params do not serialize to the
empty-array representation. -/
theorem absent_params_key_differs :
    deriveKey wFns defaultCacheOptions "q" none (some { hashType := some .full }) ≠
    deriveKey wFns defaultCacheOptions "q" (some []) (some { hashType := some .full }) ∧
    deriveKey wFns defaultCacheOptions "q" none (some { hashType := some .full }) =
      "sql.qundefined" ∧
    deriveKey wFns defaultCacheOptions "q" (some []) (some { hashType := some .full }) =
      "sql.q[]" := by
  refine ⟨by decide, rfl, rfl⟩

/-- C4, amended: absent params serialize to the fixed text `"undefined"` (the
concatenation `sql + JSON.stringify(values)` coerces the `undefined`
serialization to that string), not to the empty-array representation `"[]"`;
consequently, under the full hash strategy with no literal override the
absent-params key always differs from the explicit-empty-list key. -/
theorem absent_params_serialize_to_undefined :
    jsonStringifyValues none = "undefined" ∧
    jsonStringifyValues (some []) = "[]" ∧
    (∀ (fns : HashFns) (inst : CacheOptions) (sql : String)
       (options : Option PartialOptions),
      resolveHashType options inst = .full →
      hashOverride options = none →
      deriveKey fns inst sql none options ≠ deriveKey fns inst sql (some []) options) := by
  refine ⟨rfl, rfl, fun fns inst sql options hh ho h => ?_⟩
  unfold deriveKey at h
  rw [ho, hh] at h
  simp only [hash, payloadStr] at h
  have h' := String.ext_iff.mp h
  simp only [String.data_append] at h'
  have h'' := List.append_cancel_left (List.append_cancel_left h')
  exact absurd (congrArg List.length h'') (by decide)

/-- Witness for the implication part of the amended C4 at a concrete input. -/
theorem absent_params_serialize_to_undefined_witness :
    resolveHashType (some { hashType := some .full }) defaultCacheOptions = .full ∧
    hashOverride (some { hashType := some .full }) = none ∧
    deriveKey wFns defaultCacheOptions "q" none (some { hashType := some .full }) ≠
      deriveKey wFns defaultCacheOptions "q" (some []) (some { hashType := some .full }) :=
  ⟨rfl, rfl,
    absent_params_serialize_to_undefined.2.2 wFns defaultCacheOptions "q"
      (some { hashType := some .full }) rfl rfl⟩

/-! ## Injectivity of the full-strategy payload (towards C6's sibling claim C3)

Under the `full` strategy the key is `prefix ++ sql ++ JSON.stringify(values)`.
We show the map `(sql, values) ↦ sql ++ serializeValues values` is injective
by exhibiting a right-to-left parser that recovers `values` and `sql` from the
reversed concatenation: serializations are parsed from their last character
backwards, so whatever `sql` is, the parse consumes exactly the serialization.
-/

/-- Number of leading backslashes of a character list. -/
def leadingBS : List Char → Nat
  | [] => 0
  | c :: t => if c = '\\' then leadingBS t + 1 else 0

/-- `escChar` applied to each character of a reversed body, blocks reversed:
`revEsc s.reverse = (escAll s).reverse`. -/
def revEsc : List Char → List Char
  | [] => []
  | c :: t => (escChar c).reverse ++ revEsc t

theorem escAll_append (a b : List Char) : escAll (a ++ b) = escAll a ++ escAll b := by
  induction a with
  | nil => rfl
  | cons c t ih => simp [escAll, ih]

theorem revEsc_append (a b : List Char) : revEsc (a ++ b) = revEsc a ++ revEsc b := by
  induction a with
  | nil => rfl
  | cons c t ih => simp [revEsc, ih]

theorem escAll_reverse (s : List Char) : (escAll s).reverse = revEsc s.reverse := by
  induction s with
  | nil => rfl
  | cons c t ih =>
    simp only [escAll, List.reverse_append, ih, List.reverse_cons]
    rw [revEsc_append]
    simp [revEsc]

/-- The body parser: consumes the reversal of an escaped string body up to and
including the (bare) opening quote, returning the reversed body content and
the remainder.  A quote followed by an odd number of backslashes is an escaped
quote; followed by an even number it is the opening delimiter. -/
def pBody : List Char → Option (List Char × List Char)
  | [] => none
  | c :: rest =>
    if c = '"' then
      let b := leadingBS rest
      if b % 2 = 1 then
        match pBody (rest.drop b) with
        | some (cs, r) => some ('"' :: (List.replicate ((b - 1) / 2) '\\' ++ cs), r)
        | none => none
      else
        some ([], rest)
    else if c = '\\' then
      match rest with
      | '\\' :: r =>
        match pBody r with
        | some (cs, r') => some ('\\' :: cs, r')
        | none => none
      | _ => none
    else
      match pBody rest with
      | some (cs, r) => some (c :: cs, r)
      | none => none
termination_by cs => cs.length
decreasing_by
  · simp only [List.length_drop, List.length_cons]
    omega
  · simp only [List.length_cons]
    omega
  · simp only [List.length_cons]
    omega

/-- The leading-backslash count in front of a reversed escaped body followed
by a bare quote: each source backslash contributes an escaped pair. -/
theorem leadingBS_revEsc (t r : List Char) :
    leadingBS (revEsc t ++ '"' :: r) = 2 * leadingBS t := by
  induction t with
  | nil => simp [revEsc, leadingBS]
  | cons c t ih =>
    by_cases hbs : c = '\\'
    · subst hbs
      simp only [revEsc, escChar, List.reverse_cons]
      norm_num [leadingBS, ih]
      ring
    · by_cases hq : c = '"'
      · subst hq
        simp [revEsc, escChar, leadingBS]
      · simp [revEsc, escChar, hbs, hq, leadingBS]

/-- Decomposition of a list into its leading backslash run and the rest. -/
theorem leadingBS_decomp (t : List Char) :
    List.replicate (leadingBS t) '\\' ++ t.drop (leadingBS t) = t := by
  induction t with
  | nil => rfl
  | cons c t ih =>
    by_cases hbs : c = '\\'
    · subst hbs
      simp [leadingBS, List.replicate_succ, ih]
    · simp [leadingBS, hbs]

/-- The reversed escape of a backslash run is a doubled backslash run. -/
theorem revEsc_replicate (k : Nat) :
    revEsc (List.replicate k '\\') = List.replicate (2 * k) '\\' := by
  induction k with
  | zero => rfl
  | succ k ih =>
    have h2 : 2 * (k + 1) = (2 * k) + 1 + 1 := by ring
    simp only [List.replicate_succ, revEsc, escChar, ih, h2]
    simp [List.replicate_succ]

/-- Roundtrip of the body parser: parsing the reversed escaped body followed
by the opening quote and a remainder with no leading backslash recovers the
reversed body and the remainder. -/
theorem pBody_rt (N : Nat) :
    ∀ u r : List Char, u.length ≤ N → leadingBS r = 0 →
      pBody (revEsc u ++ '"' :: r) = some (u, r) := by
  induction N with
  | zero =>
    intro u r hu hr
    have hnil : u = [] := List.eq_nil_of_length_eq_zero (Nat.le_zero.mp hu)
    subst hnil
    rw [revEsc, List.nil_append, pBody.eq_def]
    simp [hr]
  | succ N ih =>
    intro u r hu hr
    match u with
    | [] =>
      rw [revEsc, List.nil_append, pBody.eq_def]
      simp [hr]
    | c :: t =>
      by_cases hq : c = '"'
      · subst hq
        -- input = '"' :: '\\' :: (revEsc t ++ '"' :: r)
        have hshape : revEsc ('"' :: t) ++ '"' :: r =
            '"' :: '\\' :: (revEsc t ++ '"' :: r) := by
          simp [revEsc, escChar]
        rw [hshape]
        have hb : leadingBS ('\\' :: (revEsc t ++ '"' :: r)) = 2 * leadingBS t + 1 := by
          simp [leadingBS, leadingBS_revEsc]
        have hdec := leadingBS_decomp t
        have hdrop : ('\\' :: (revEsc t ++ '"' :: r)).drop (2 * leadingBS t + 1) =
            revEsc (t.drop (leadingBS t)) ++ '"' :: r := by
          have hsplit : revEsc t =
              List.replicate (2 * leadingBS t) '\\' ++ revEsc (t.drop (leadingBS t)) := by
            conv_lhs => rw [← hdec]
            rw [revEsc_append, revEsc_replicate]
          rw [List.drop_succ_cons, hsplit, List.append_assoc]
          have hstep := List.drop_left (List.replicate (2 * leadingBS t) '\\')
            (revEsc (t.drop (leadingBS t)) ++ '"' :: r)
          rwa [List.length_replicate] at hstep
        have ht₂len : (t.drop (leadingBS t)).length ≤ N := by
          have h1 : (t.drop (leadingBS t)).length ≤ t.length := by
            simp [List.length_drop]
          have h2 : t.length + 1 ≤ N + 1 := by simpa using hu
          omega
        have hih := ih (t.drop (leadingBS t)) r ht₂len hr
        have hodd : (2 * leadingBS t + 1) % 2 = 1 := by omega
        have hhalf : (2 * leadingBS t + 1 - 1) / 2 = leadingBS t := by omega
        rw [pBody.eq_def]
        simp only [if_pos rfl, hb, hodd, hhalf, hdrop, hih]
        simp [hdec]
      · by_cases hbs : c = '\\'
        · subst hbs
          have hshape : revEsc ('\\' :: t) ++ '"' :: r =
              '\\' :: '\\' :: (revEsc t ++ '"' :: r) := by
            simp [revEsc, escChar]
          rw [hshape]
          have ht : t.length ≤ N := by
            have h2 : t.length + 1 ≤ N + 1 := by simpa using hu
            omega
          have hih := ih t r ht hr
          rw [pBody.eq_def]
          simp [hih]
        · have hshape : revEsc (c :: t) ++ '"' :: r = c :: (revEsc t ++ '"' :: r) := by
            simp [revEsc, escChar, hq, hbs]
          rw [hshape]
          have ht : t.length ≤ N := by
            have h2 : t.length + 1 ≤ N + 1 := by simpa using hu
            omega
          have hih := ih t r ht hr
          rw [pBody.eq_def]
          simp [hq, hbs, hih]

/-! ### Parsing the numeric items -/

/-- Numeric value of a forward digit string (most significant first). -/
def natOf (ds : List Char) : Nat :=
  ds.foldl (fun a c => 10 * a + (c.toNat - 48)) 0

/-- Parse a forward number rendering. -/
def pInt (cs : List Char) : Option Int :=
  match cs with
  | [] => none
  | c :: rest =>
    if c = '-' then
      if rest = [] then none else some (-(natOf rest : Int))
    else
      some ((natOf (c :: rest) : Int))

/-- The ten digit characters. -/
def digitChs : List Char := ['0', '1', '2', '3', '4', '5', '6', '7', '8', '9']

theorem digitsOf_mem (m : Nat) : ∀ c ∈ digitsOf m, c ∈ digitChs := by
  intro c hc
  unfold digitsOf at hc
  by_cases hm : m = 0
  · simp [hm] at hc
    simp [hc, digitChs]
  · rw [if_neg hm] at hc
    rw [List.mem_reverse, List.mem_map] at hc
    obtain ⟨d, hd, hdc⟩ := hc
    have hlt : d < 10 := Nat.digits_lt_base (by norm_num) hd
    subst hdc
    interval_cases d <;> simp [digitChs, Nat.digitChar]

theorem digitsOf_ne_nil (m : Nat) : digitsOf m ≠ [] := by
  unfold digitsOf
  by_cases hm : m = 0
  · simp [hm]
  · rw [if_neg hm]
    simp [Nat.digits_ne_nil_iff_ne_zero, hm]

theorem natOf_digitsOf (m : Nat) : natOf (digitsOf m) = m := by
  have key : ∀ L : List Nat, (∀ d ∈ L, d < 10) →
      natOf ((L.map Nat.digitChar).reverse) = Nat.ofDigits 10 L := by
    intro L
    induction L with
    | nil => intro _; simp [natOf, Nat.ofDigits]
    | cons d L ih =>
      intro hL
      have hd : d < 10 := hL d (by simp)
      have hL' : ∀ e ∈ L, e < 10 := fun e he => hL e (by simp [he])
      have hstep : natOf ((L.map Nat.digitChar).reverse ++ [Nat.digitChar d]) =
          10 * natOf ((L.map Nat.digitChar).reverse) + ((Nat.digitChar d).toNat - 48) := by
        unfold natOf
        rw [List.foldl_append]
        simp
      have hchar : (Nat.digitChar d).toNat - 48 = d := by
        interval_cases d <;> rfl
      simp only [List.map_cons, List.reverse_cons, hstep, hchar, ih hL',
        Nat.ofDigits_cons]
      ring
  unfold digitsOf
  by_cases hm : m = 0
  · simp [hm, natOf]
  · rw [if_neg hm, key _ (fun d hd => Nat.digits_lt_base (by norm_num) hd),
      Nat.ofDigits_digits]

theorem pInt_intChars (n : Int) : pInt (intChars n) = some n := by
  by_cases hn : n < 0
  · have habs : (-(n.natAbs : Int)) = n := by omega
    simp only [intChars, if_pos hn, pInt]
    rw [if_true, if_neg (digitsOf_ne_nil _), natOf_digitsOf, habs]
  · have habs : ((n.natAbs : Int)) = n := by omega
    simp only [intChars, if_neg hn]
    rcases hd : digitsOf n.natAbs with _ | ⟨c, rest⟩
    · exact absurd hd (digitsOf_ne_nil _)
    · have hcmem : c ∈ digitChs := digitsOf_mem _ c (by rw [hd]; simp)
      have hcne : c ≠ '-' := by
        rcases List.mem_iff_get.mp hcmem with ⟨i, hi⟩
        fin_cases i <;> (rw [← hi]; decide)
      rw [pInt]
      rw [if_neg hcne, ← hd, natOf_digitsOf, habs]

/-! ### Parsing one item from the right -/

/-- Delimiters that terminate a reversed numeric item: the element separator
and the array opener. -/
def isDelim (c : Char) : Bool := c = ',' || c = '['

/-- Parse one serialized item from the front of a reversed stream: a closing
quote starts a string, anything else is read as a number up to the next
delimiter. -/
def pItem (cs : List Char) : Option (JsParam × List Char) :=
  match cs with
  | [] => none
  | c :: _ =>
    if c = '"' then
      match pBody cs.tail with
      | some (body, r) => some (.str body.reverse, r)
      | none => none
    else
      match pInt ((cs.takeWhile (fun d => !(isDelim d))).reverse) with
      | some n => some (.num n, cs.dropWhile (fun d => !(isDelim d)))
      | none => none

/-- takeWhile/dropWhile split of a satisfying block followed by a failing
head. -/
theorem span_append (p : Char → Bool) (l r : List Char)
    (hl : ∀ c ∈ l, p c = true) (hr : ∀ c ∈ r.head?, p c = false) :
    (l ++ r).takeWhile p = l ∧ (l ++ r).dropWhile p = r := by
  induction l with
  | nil =>
    rcases r with _ | ⟨c, r⟩
    · simp
    · have := hr c (by simp)
      simp [List.takeWhile, List.dropWhile, this]
  | cons c l ih =>
    have hc := hl c (by simp)
    have hl' : ∀ d ∈ l, p d = true := fun d hd => hl d (by simp [hd])
    obtain ⟨h1, h2⟩ := ih hl'
    simp [List.takeWhile, List.dropWhile, hc, h1, h2]

theorem intChars_mem (n : Int) : ∀ c ∈ intChars n, c = '-' ∨ c ∈ digitChs := by
  intro c hc
  unfold intChars at hc
  by_cases hn : n < 0
  · rw [if_pos hn, List.mem_cons] at hc
    rcases hc with hc | hc
    · exact Or.inl hc
    · exact Or.inr (digitsOf_mem _ c hc)
  · rw [if_neg hn] at hc
    exact Or.inr (digitsOf_mem _ c hc)

theorem intChars_not_delim (n : Int) : ∀ c ∈ intChars n, isDelim c = false := by
  intro c hc
  rcases intChars_mem n c hc with h | h
  · subst h; rfl
  · rcases List.mem_iff_get.mp h with ⟨i, hi⟩
    fin_cases i <;> (rw [← hi]; rfl)

theorem intChars_not_quote (n : Int) : ∀ c ∈ intChars n, ¬ c = '"' := by
  intro c hc
  rcases intChars_mem n c hc with h | h
  · subst h; decide
  · rcases List.mem_iff_get.mp h with ⟨i, hi⟩
    fin_cases i <;> (rw [← hi]; decide)

/-- Roundtrip of the item parser over the reversed item serialization followed
by a delimiter-headed rest. -/
theorem pItem_rt (it : JsParam) (r : List Char)
    (hr : ∀ c ∈ r.head?, isDelim c = true) :
    pItem ((itemChars it).reverse ++ r) = some (it, r) := by
  rcases it with n | s
  · -- numeric item
    have hne : (intChars n).reverse ≠ [] := by
      simp only [ne_eq, List.reverse_eq_nil_iff]
      unfold intChars
      by_cases hn : n < 0
      · simp [hn]
      · simp [hn, digitsOf_ne_nil]
    rcases hrev : (intChars n).reverse with _ | ⟨c, rest⟩
    · exact absurd hrev hne
    · have hcmem : c ∈ intChars n := by
        have : c ∈ (intChars n).reverse := by rw [hrev]; simp
        simpa using this
      have hq : ¬ c = '"' := intChars_not_quote n c hcmem
      have hspan := span_append (fun d => !(isDelim d)) (c :: rest) r
        (by
          intro d hd
          have hdm : d ∈ intChars n := by
            have : d ∈ (intChars n).reverse := by rw [hrev]; exact hd
            simpa using this
          simp [intChars_not_delim n d hdm])
        (by
          intro d hd
          simp [hr d hd])
      rw [itemChars, hrev]
      simp only [List.cons_append]
      rw [pItem]
      rw [if_neg hq]
      have htake : ((c :: rest) ++ r).takeWhile (fun d => !(isDelim d)) = c :: rest :=
        hspan.1
      have hdrop : ((c :: rest) ++ r).dropWhile (fun d => !(isDelim d)) = r :=
        hspan.2
      simp only [List.cons_append] at htake hdrop
      rw [htake, hdrop, ← hrev, List.reverse_reverse, pInt_intChars]
  · -- string item
    have hshape : (itemChars (.str s)).reverse ++ r =
        '"' :: ((escAll s).reverse ++ '"' :: r) := by
      simp [itemChars]
    rw [hshape, pItem]
    rw [if_pos rfl]
    have hlb : leadingBS r = 0 := by
      rcases r with _ | ⟨c, r⟩
      · rfl
      · have := hr c (by simp)
        have hcne : c ≠ '\\' := by
          rcases Bool.or_eq_true_iff.mp this with h | h <;>
            (simp only [decide_eq_true_eq] at h; subst h; decide)
        simp [leadingBS, hcne]
    have hbody : pBody ((escAll s).reverse ++ '"' :: r) = some (s.reverse, r) := by
      rw [escAll_reverse]
      exact pBody_rt s.reverse.length s.reverse r (le_refl _) hlb
    simp only [List.tail_cons, hbody, List.reverse_reverse]

/-! ### Parsing the item list and the whole payload suffix from the right -/

/-- Parse a comma-separated reversed item stream up to the array opener.
Items come out in forward order (the stream presents the last one first). -/
def pItems : Nat → List Char → Option (List JsParam × List Char)
  | 0, _ => none
  | fuel + 1, cs =>
    match pItem cs with
    | none => none
    | some (it, rest) =>
      match rest with
      | [] => none
      | c :: r =>
        if c = ',' then
          match pItems fuel r with
          | some (l, r') => some (l ++ [it], r')
          | none => none
        else if c = '[' then some ([it], r)
        else none

theorem itemsChars_snoc (y : JsParam) : ∀ ys : List JsParam, ys ≠ [] →
    itemsChars (ys ++ [y]) = itemsChars ys ++ ',' :: itemChars y := by
  intro ys
  induction ys with
  | nil => intro h; exact absurd rfl h
  | cons x zs ih =>
    intro _
    rcases zs with _ | ⟨z, zs'⟩
    · simp [itemsChars]
    · have ihz := ih (by simp)
      simp only [List.cons_append] at ihz ⊢
      rw [itemsChars, ihz]
      conv_rhs => rw [itemsChars]
      simp

theorem itemChars_ne_nil (y : JsParam) : itemChars y ≠ [] := by
  rcases y with n | s
  · simp only [itemChars, ne_eq]
    unfold intChars
    by_cases hn : n < 0
    · simp [hn]
    · simp [hn, digitsOf_ne_nil]
  · simp [itemChars]

theorem le_length_itemsChars (l : List JsParam) : l.length ≤ (itemsChars l).length := by
  induction l with
  | nil => simp [itemsChars]
  | cons x l ih =>
    rcases l with _ | ⟨y, ys⟩
    · have := itemChars_ne_nil x
      have : 1 ≤ (itemChars x).length := by
        rcases hx : itemChars x with _ | _
        · exact absurd hx this
        · simp
      simpa [itemsChars] using this
    · rw [itemsChars]
      have h1 : 1 ≤ (itemChars x).length := by
        rcases hx : itemChars x with _ | _
        · exact absurd hx (itemChars_ne_nil x)
        · simp
      simp only [List.length_append, List.length_cons]
      have := ih
      simp only [List.length_cons] at this ⊢
      omega

/-- Head of the reversed item serialization: closing quote or digit, never the
array opener. -/
theorem itemChars_rev_head (y : JsParam) :
    ∃ c cs, (itemChars y).reverse = c :: cs ∧ ¬ c = '[' := by
  rcases y with n | s
  · rcases hrev : (intChars n).reverse with _ | ⟨c, cs⟩
    · have : intChars n = [] := by simpa using congrArg List.reverse hrev
      exact absurd this (by simpa [itemChars] using itemChars_ne_nil (.num n))
    · refine ⟨c, cs, by simpa [itemChars] using hrev, ?_⟩
      have hcmem : c ∈ intChars n := by
        have : c ∈ (intChars n).reverse := by rw [hrev]; simp
        simpa using this
      intro hc
      have := intChars_not_delim n c hcmem
      rw [hc] at this
      simp [isDelim] at this
  · refine ⟨'"', (escAll s).reverse ++ ['"'], by simp [itemChars], by decide⟩

theorem itemsChars_rev_head (l : List JsParam) (h : l ≠ []) :
    ∃ c cs, (itemsChars l).reverse = c :: cs ∧ ¬ c = '[' := by
  rcases List.eq_nil_or_concat l with hl | ⟨ys, y, hl⟩
  · exact absurd hl h
  · rw [List.concat_eq_append] at hl
    subst hl
    obtain ⟨c, cs, hrev, hc⟩ := itemChars_rev_head y
    rcases ys with _ | ⟨x, xs⟩
    · exact ⟨c, cs, by simpa [itemsChars] using hrev, hc⟩
    · refine ⟨c, cs ++ ',' :: (itemsChars (x :: xs)).reverse, ?_, hc⟩
      rw [itemsChars_snoc y (x :: xs) (by simp)]
      simp [hrev]

/-- Roundtrip of the item-list parser. -/
theorem pItems_rt (fuel : Nat) :
    ∀ (l : List JsParam) (r : List Char), l ≠ [] → l.length ≤ fuel →
      pItems fuel ((itemsChars l).reverse ++ '[' :: r) = some (l, r) := by
  induction fuel with
  | zero =>
    intro l r hne hlen
    rcases l with _ | _
    · exact absurd rfl hne
    · simp at hlen
  | succ fuel ih =>
    intro l r hne hlen
    rcases List.eq_nil_or_concat l with hl | ⟨ys, y, hl⟩
    · exact absurd hl hne
    · rw [List.concat_eq_append] at hl
      subst hl
      rcases ys with _ | ⟨x, xs⟩
      · -- single item
        have hitem := pItem_rt y ('[' :: r) (by intro c hc; simp at hc; subst hc; rfl)
        rw [pItems]
        simp only [itemsChars, List.nil_append, hitem]
        rfl
      · -- at least two items: last item first, then a comma
        have hysne : (x :: xs : List JsParam) ≠ [] := by simp
        have hshape : (itemsChars ((x :: xs) ++ [y])).reverse ++ '[' :: r =
            (itemChars y).reverse ++ ',' :: ((itemsChars (x :: xs)).reverse ++ '[' :: r) := by
          rw [itemsChars_snoc y (x :: xs) hysne]
          simp
        rw [hshape]
        have hitem := pItem_rt y (',' :: ((itemsChars (x :: xs)).reverse ++ '[' :: r))
          (by intro c hc; simp at hc; subst hc; rfl)
        have hys_len : (x :: xs : List JsParam).length ≤ fuel := by
          have hx : ((x :: xs) ++ [y] : List JsParam).length ≤ fuel + 1 := hlen
          simp only [List.length_append, List.length_cons] at hx ⊢
          omega
        have hih := ih (x :: xs) r hysne hys_len
        rw [pItems]
        simp only [hitem, hih]
        rfl

/-- Parse a reversed array serialization (leading closing bracket). -/
def pList (cs : List Char) : Option (List JsParam × List Char) :=
  match cs with
  | ']' :: c2 :: r2 =>
    if c2 = '[' then some ([], r2)
    else pItems (c2 :: r2).length (c2 :: r2)
  | _ => none

/-- Roundtrip of the array parser: the reversal of a serialized array followed
by anything parses back to the array, leaving the rest untouched. -/
theorem pList_rt (l : List JsParam) (r : List Char) :
    pList ((listChars l).reverse ++ r) = some (l, r) := by
  have hshape : (listChars l).reverse ++ r = ']' :: ((itemsChars l).reverse ++ '[' :: r) := by
    simp [listChars]
  rw [hshape]
  rcases hl : l with _ | ⟨x, xs⟩
  · simp [itemsChars, pList]
  · rw [← hl]
    have hlne : l ≠ [] := by simp [hl]
    obtain ⟨c, cs, hrev, hc⟩ := itemsChars_rev_head l hlne
    rw [hrev]
    simp only [List.cons_append]
    rw [pList]
    rw [if_neg hc]
    have hback : c :: (cs ++ '[' :: r) = (itemsChars l).reverse ++ '[' :: r := by
      rw [hrev]
      simp
    rw [hback]
    refine pItems_rt _ l r hlne ?_
    have h1 := le_length_itemsChars l
    simp only [List.length_append, List.length_reverse, List.length_cons]
    omega

/-- Recognize the reversal of the text `"undefined"`. -/
def pUndef (cs : List Char) : Option (List Char) :=
  match cs with
  | 'd' :: 'e' :: 'n' :: 'i' :: 'f' :: 'e' :: 'd' :: 'n' :: 'u' :: r => some r
  | _ => none

/-- Parse the reversal of `serializeValues v` from the front: a closing
bracket starts an array, otherwise the fixed text `"undefined"` is expected. -/
def pTop (cs : List Char) : Option (Option (List JsParam) × List Char) :=
  match cs with
  | [] => none
  | c :: _ =>
    if c = ']' then
      match pList cs with
      | some (l, r) => some (some l, r)
      | none => none
    else
      match pUndef cs with
      | some r => some (none, r)
      | none => none

/-- Roundtrip of the payload-suffix parser. -/
theorem pTop_rt (v : Option (List JsParam)) (r : List Char) :
    pTop ((serializeValues v).reverse ++ r) = some (v, r) := by
  rcases v with _ | l
  · rfl
  · have hshape : (serializeValues (some l)).reverse ++ r =
        ']' :: ((itemsChars l).reverse ++ '[' :: r) := by
      simp [serializeValues, listChars]
    have hlist : pList ((listChars l).reverse ++ r) = some (l, r) := pList_rt l r
    have hshape2 : (listChars l).reverse ++ r = ']' :: ((itemsChars l).reverse ++ '[' :: r) := by
      simp [listChars]
    rw [hshape, pTop]
    rw [if_pos rfl, ← hshape2, hlist]

/-- Injectivity of the full-strategy payload map `(sql, values) ↦ sql ++
serializeValues values`, at the character level. -/
theorem payloadChars_inj (sql₁ sql₂ : List Char) (v₁ v₂ : Option (List JsParam))
    (h : sql₁ ++ serializeValues v₁ = sql₂ ++ serializeValues v₂) :
    sql₁ = sql₂ ∧ v₁ = v₂ := by
  have h' : (serializeValues v₁).reverse ++ sql₁.reverse =
      (serializeValues v₂).reverse ++ sql₂.reverse := by
    have := congrArg List.reverse h
    simpa [List.reverse_append] using this
  have h₁ := pTop_rt v₁ sql₁.reverse
  have h₂ := pTop_rt v₂ sql₂.reverse
  rw [h', h₂] at h₁
  have hv : v₂ = v₁ ∧ sql₂.reverse = sql₁.reverse := by
    have := Option.some.inj h₁
    exact ⟨congrArg Prod.fst this, congrArg Prod.snd this⟩
  refine ⟨?_, hv.1.symm⟩
  have := hv.2
  simpa using congrArg List.reverse this.symm

/-- C3: under the full hash strategy, with no literal key override and a fixed
prefix, key derivation is injective — two invocations that derive the same
cache key must have supplied the same sql text and the same parameter list. -/
theorem full_strategy_key_injective (fns : HashFns) (inst : CacheOptions)
    (options : Option PartialOptions) (sql₁ sql₂ : String)
    (v₁ v₂ : Option (List JsParam))
    (hht : resolveHashType options inst = .full)
    (hov : hashOverride options = none)
    (h : deriveKey fns inst sql₁ v₁ options = deriveKey fns inst sql₂ v₂ options) :
    sql₁ = sql₂ ∧ v₁ = v₂ := by
  unfold deriveKey at h
  rw [hov, hht] at h
  simp only [hash, payloadStr] at h
  have hd := congrArg String.data h
  simp only [String.data_append] at hd
  have hd' := List.append_cancel_left hd
  have hchars : sql₁.data ++ serializeValues v₁ = sql₂.data ++ serializeValues v₂ := hd'
  obtain ⟨hs, hv⟩ := payloadChars_inj _ _ _ _ hchars
  exact ⟨String.ext hs, hv⟩

/-- Witness for C3 at a concrete input. -/
theorem full_strategy_key_injective_witness :
    resolveHashType (some { hashType := some .full }) defaultCacheOptions = .full ∧
    hashOverride (some { hashType := some .full }) = none ∧
    ("ab" : String) = "ab" ∧ (some [JsParam.num 7] : Option (List JsParam)) = some [.num 7] :=
  ⟨rfl, rfl,
    full_strategy_key_injective wFns defaultCacheOptions (some { hashType := some .full })
      "ab" "ab" (some [.num 7]) (some [.num 7]) rfl rfl rfl⟩

end MysqlRedisSpec
